import Mathlib

/-!
Verification of the Notimanager changelog-to-appcast pipeline
(`scripts/generate_appcast_from_changelog.py`).

The pipeline is embedded shallowly over `List Char`:
* Python strings become `List Char` (called `Str` here); file reads become
  `Option Str` arguments (`none` models a read failure / absent file).
* The regular expressions of the source are embedded as explicit character
  scanners that follow the source patterns literally.  Python's `\d` and `\s`
  are modelled by their ASCII meaning, which is the alphabet the changelog
  format uses.
* `xml.etree.ElementTree` trees are modelled by the `Child`/`Item` structures
  below, restricted to the shape the script itself reads and writes (items
  carrying title, pubDate, optional sparkle fields, a description and an
  enclosure).  An enclosure signature is a plain string, with `[]` playing the
  role Python's empty string plays in the script (attribute absent).
-/

/-- Python strings are modelled as lists of characters. -/
abbrev Str := List Char

/-- The character list of a string literal. -/
abbrev chars (s : String) : Str := s.data

/-- Newline. -/
abbrev cNl : Char := ('\n')
/-- Space. -/
abbrev cSp : Char := (' ')
/-- Horizontal tab. -/
abbrev cTab : Char := ('\t')
/-- Carriage return. -/
abbrev cCr : Char := ('\r')
/-- Vertical tab, U+000B. -/
abbrev cVt : Char := Char.ofNat 11
/-- Form feed, U+000C. -/
abbrev cFf : Char := Char.ofNat 12
/-- Ampersand. -/
abbrev cAmp : Char := ('&')
/-- Less-than sign. -/
abbrev cLt : Char := ('<')
/-- Greater-than sign. -/
abbrev cGt : Char := ('>')
/-- Double quote, U+0022. -/
abbrev cQuot : Char := Char.ofNat 34
/-- Apostrophe, U+0027. -/
abbrev cApos : Char := Char.ofNat 39
/-- Backquote, U+0060 (the inline-code marker of the markdown dialect). -/
abbrev cTick : Char := Char.ofNat 96
/-- Hyphen-minus. -/
abbrev cDash : Char := ('-')
/-- Asterisk. -/
abbrev cStar : Char := ('*')

/-- Python's `\s` / `str.strip()` whitespace, restricted to ASCII. -/
def pyWs (c : Char) : Bool :=
  c = cSp || c = cTab || c = cNl || c = cCr || c = cVt || c = cFf

/-- Python `str.strip()`: remove leading and trailing whitespace. -/
def pyStrip (s : Str) : Str :=
  ((s.dropWhile pyWs).reverse.dropWhile pyWs).reverse

/-- Boolean string-prefix test (Python `str.startswith`). -/
def hasPfx (p s : Str) : Bool :=
  match p with
  | [] => true
  | ph :: pt =>
    match s with
    | [] => false
    | c :: cs => ph = c && hasPfx pt cs

/-- Split a string at the first occurrence of `pat` (Python `str.find` /
the first match of a literal pattern): returns the part before the
occurrence and the part after it. -/
def splitOnFirst (pat : Str) : Str → Option (Str × Str)
  | [] => none
  | c :: rest =>
    if hasPfx pat (c :: rest) then some ([], (c :: rest).drop pat.length)
    else (splitOnFirst pat rest).map (fun pr => (c :: pr.1, pr.2))

/-- Whether `pat` occurs as a contiguous substring (decidable form). -/
def occursB (pat s : Str) : Bool := (splitOnFirst pat s).isSome

/-- `pat` occurs as a contiguous substring of `s`. -/
def OccursIn (pat s : Str) : Prop := ∃ u v, s = u ++ pat ++ v

/-- `html.escape` on one character (`quote=True`, as the script uses it). -/
def esc1 (c : Char) : Str :=
  if c = cAmp then chars ("&amp;")
  else if c = cLt then chars ("&lt;")
  else if c = cGt then chars ("&gt;")
  else if c = cQuot then chars ("&quot;")
  else if c = cApos then chars ("&#x27;")
  else [c]

/-- `html.escape` (`quote=True`), the markup-escaping primitive of the script. -/
def escape (s : Str) : Str := s.flatMap esc1

/-- Entity decoding as performed by the XML parser on text and attribute
values, restricted to the five entities `escape` emits.  Structured with an
explicit fuel argument (one unit per emitted character) so that it stays
computable by reduction; `unesc` supplies enough fuel. -/
def unescF : Nat → Str → Str
  | 0, s => s
  | _ + 1, [] => []
  | n + 1, c :: rest =>
    if c = cAmp then
      if hasPfx (chars ("amp;")) rest then cAmp :: unescF n (rest.drop 4)
      else if hasPfx (chars ("lt;")) rest then cLt :: unescF n (rest.drop 3)
      else if hasPfx (chars ("gt;")) rest then cGt :: unescF n (rest.drop 3)
      else if hasPfx (chars ("quot;")) rest then cQuot :: unescF n (rest.drop 5)
      else if hasPfx (chars ("#x27;")) rest then cApos :: unescF n (rest.drop 5)
      else c :: unescF n rest
    else c :: unescF n rest

/-- Entity decoding with sufficient fuel. -/
def unesc (s : Str) : Str := unescF s.length s

/-! ### The markdown renderer of `generate_appcast_from_changelog.py`
(`markdown_to_html`, lines 121-172 of the script). -/

/-- Python `str.split('\n')`. -/
def splitLines : Str → List Str
  | [] => [[]]
  | c :: r =>
    if c = cNl then [] :: splitLines r
    else
      match splitLines r with
      | l :: ls => (c :: l) :: ls
      | [] => [[c]]

/-- Python `'\n'.join`. -/
def joinNL : List Str → Str
  | [] => []
  | [l] => l
  | l :: ls => l ++ cNl :: joinNL ls

/-- One left-to-right pass of `re.sub` for a non-greedy delimited pattern
such as `\*\*(.*?)\*\*` or `` `(.*?)` ``: at each position, if the opening
marker matches and a closing marker follows, the shortest delimited span is
replaced by `tagO ++ span ++ tagC` and scanning resumes after the match;
otherwise scanning advances one character.  `fuel` bounds the number of
steps (one per consumed character); callers supply the string length. -/
def subWrap : Nat → Str → Str → Str → Str → Str → Str
  | 0, _, _, _, _, s => s
  | _ + 1, _, _, _, _, [] => []
  | n + 1, op, cl, tagO, tagC, c :: rest =>
    if hasPfx op (c :: rest) then
      match splitOnFirst cl ((c :: rest).drop op.length) with
      | some (mid, after) => tagO ++ mid ++ tagC ++ subWrap n op cl tagO tagC after
      | none => c :: subWrap n op cl tagO tagC rest
    else c :: subWrap n op cl tagO tagC rest

/-- `re.sub(r'\*\*(.*?)\*\*', r'<strong>\1</strong>', s)`. -/
def subBold (s : Str) : Str :=
  subWrap s.length (chars ("**")) (chars ("**")) (chars ("<strong>")) (chars ("</strong>")) s

/-- ``re.sub(r'`(.*?)`', r'<code>\1</code>', s)``. -/
def subCode (s : Str) : Str :=
  subWrap s.length [cTick] [cTick] (chars ("<code>")) (chars ("</code>")) s

/-- The test `re.match(r'^\s*-\s+', line) or re.match(r'^\s*\*\s+', line)`:
optional leading whitespace, a dash or asterisk, then at least one
whitespace character. -/
def isBullet (l : Str) : Bool :=
  match l.dropWhile pyWs with
  | c :: c2 :: _ => (c = cDash || c = cStar) && pyWs c2
  | _ => false

/-- `re.sub(r'^\s*[-*]\s+', '', line).strip()`: drop the leading whitespace,
the marker and the (greedy) whitespace after it, then strip. -/
def stripBullet (l : Str) : Str :=
  pyStrip (((l.dropWhile pyWs).drop 1).dropWhile pyWs)

/-- Classification of one body line by the renderer's first pass:
`### ` headers become `<h4>` elements (escaped), bullet lines become `<li>`
elements (bold then inline-code substitution, unescaped), blank lines become
empty placeholders, anything else is dropped (`none`). -/
def classifyLine (l : Str) : Option Str :=
  if hasPfx (chars ("### ")) l then
    some (chars ("<h4>") ++ escape (pyStrip (l.drop 4)) ++ chars ("</h4>"))
  else if isBullet l then
    some (chars ("<li>") ++ subCode (subBold (stripBullet l)) ++ chars ("</li>"))
  else if pyStrip l = [] then some []
  else none

/-- The `html_lines` list built by the renderer's first pass. -/
def htmlLines (md : Str) : List Str := (splitLines md).filterMap classifyLine

/-- The renderer's second pass: wrap consecutive `<li>` elements in one
`<ul>`/`</ul>` pair, with the boolean `in_list` state. -/
def wrapGo : List Str → Bool → List Str
  | [], inList => if inList then [chars ("</ul>")] else []
  | l :: rest, inList =>
    if hasPfx (chars ("<li>")) l then
      (if inList then [l] else [chars ("<ul>"), l]) ++ wrapGo rest true
    else if l ≠ [] then
      (if inList then [chars ("</ul>"), l] else [l]) ++ wrapGo rest false
    else l :: wrapGo rest inList

/-- The renderer's second pass, started outside a list. -/
def wrapLists (lines : List Str) : List Str := wrapGo lines false

/-- `markdown_to_html` of `generate_appcast_from_changelog.py`. -/
def markdown_to_html (md : Str) : Str := joinNL (wrapLists (htmlLines md))

/-! ### Changelog parsing (`get_release_notes`, `extract_version_date`)

The source searches the changelog with `^`-anchored multiline regular
expressions (`re.search(..., re.MULTILINE)`); an anchored multiline search
is embedded as a scan over `splitLines` of the content, i.e. over exactly
the positions `^` can match.  Version strings are taken literally
(`re.escape`); the embedding treats them as newline-free literals. -/

/-- The literal part `## [VERSION] - ` of the version-boundary pattern. -/
def hdr (v : Str) : Str := chars ("## [") ++ v ++ chars ("] - ")

/-- `\d{4}-\d{2}-\d{2}` matched against a 10-character window (ASCII digits). -/
def dateShaped (s : Str) : Bool :=
  match s with
  | [a, b, c, d, e, f, g, h, i, j] =>
    a.isDigit && b.isDigit && c.isDigit && d.isDigit && e = cDash &&
    f.isDigit && g.isDigit && h = cDash && i.isDigit && j.isDigit
  | _ => false

/-- One line matches `^## \[VERSION\] - \d{4}-\d{2}-\d{2}` (a prefix match,
as `re.search` imposes no end anchor). -/
def lineMatchesHeader (v l : Str) : Bool :=
  hasPfx (hdr v) l && dateShaped ((l.drop (hdr v).length).take 10)

/-- First element satisfying `p` together with the elements after it. -/
def findLine (p : Str → Bool) : List Str → Option (Str × List Str)
  | [] => none
  | l :: ls => if p l then some (l, ls) else findLine p ls

/-- The markdown window `content[match.end():next_header_or_eof].strip()`
extracted by `get_release_notes`: the rest of the matched boundary line
after the date, plus the following lines up to (excluding) the next line
starting with `## [`; `none` when the version has no boundary line.  The
`^## \[` search on the remainder can also match at the very start of the
remainder (start-of-string), in which case the window is empty. -/
def grnBody (content v : Str) : Option Str :=
  match findLine (lineMatchesHeader v) (splitLines content) with
  | none => none
  | some (l, ls) =>
    let rem := l.drop ((hdr v).length + 10)
    if hasPfx (chars ("## [")) rem then some []
    else some (pyStrip (joinNL (rem :: ls.takeWhile (fun l2 => !hasPfx (chars ("## [")) l2))))

/-- The date captured by `extract_version_date`'s search, when the version
has a boundary line. -/
def evdSearch (content v : Str) : Option Str :=
  match findLine (lineMatchesHeader v) (splitLines content) with
  | none => none
  | some (l, _) => some ((l.drop (hdr v).length).take 10)

/-- `extract_version_date`: the captured date of the first boundary line for
the version, falling back to today's date (`today`) when the version is
absent or the changelog cannot be read (`none`). -/
def extract_version_date (file : Option Str) (v today : Str) : Str :=
  match file with
  | none => today
  | some c => (evdSearch c v).getD today

/-- The fixed placeholder body returned when no notes are available. -/
def noNotes : Str := chars ("<p>No release notes available.</p>")

/-- The fixed styled-document text preceding the rendered notes in
`get_release_notes` (the f-string of lines 61-110 of the script, up to and
including the line `<body>`). -/
def docPre : Str := chars ("<!DOCTYPE html>\n<html>\n<head>\n  <meta charset=\"UTF-8\">\n  <style>\n    body \x7b\n      font-family: -apple-system, BlinkMacSystemFont, \"SF Pro Text\", \"Helvetica Neue\", Helvetica, Arial, sans-serif;\n      padding: 16px;\n      margin: 0;\n      line-height: 1.5;\n      color: #333;\n      font-size: 13px;\n    \x7d\n    h3 \x7b\n      font-size: 16px;\n      font-weight: 600;\n      margin-top: 20px;\n      margin-bottom: 8px;\n      color: #1d1d1f;\n    \x7d\n    h4 \x7b\n      font-size: 13px;\n      font-weight: 600;\n      margin-top: 12px;\n      margin-bottom: 6px;\n      color: #6e6e73;\n    \x7d\n    ul \x7b\n      margin: 0 0 12px 0;\n      padding-left: 18px;\n    \x7d\n    li \x7b\n      margin-bottom: 4px;\n      font-size: 13px;\n      color: #1d1d1f;\n    \x7d\n    code \x7b\n      font-family: \"SF Mono\", Monaco, Consolas, \"Liberation Mono\", \"Courier New\", monospace;\n      font-size: 12px;\n      background: #f5f5f7;\n      padding: 2px 5px;\n      border-radius: 3px;\n    \x7d\n    strong \x7b\n      font-weight: 600;\n    \x7d\n  </style>\n</head>\n<body>\n")

/-- The fixed styled-document text following the rendered notes. -/
def docPost : Str := chars ("\n</body>\n</html>")

/-- `get_release_notes`: the styled document embedding the rendered notes
for the version's window, or the fixed placeholder when the version has no
boundary line or the changelog cannot be read (the `except` branch of the
source, modelled by the `none` file state). -/
def get_release_notes (file : Option Str) (v : Str) : Str :=
  match file with
  | none => noNotes
  | some c =>
    match grnBody c v with
    | none => noNotes
    | some b => docPre ++ markdown_to_html b ++ docPost

/-! ### Whole-changelog records

The spec's Changelog Parser splits the document into ordered version
records.  The source realizes the boundary recognition per version
(`^## \[VERSION\] - \d{4}-\d{2}-\d{2}`) and the window extraction inside
`get_release_notes`; the parser below applies the same boundary pattern
generically to every line: any `## [`-prefixed line closes the current
record, and such a line of the full boundary shape opens a new one (an
`## [Unreleased]` heading therefore closes a window without opening one). -/

/-- A parsed version record. -/
structure VersionRecord where
  version : Str
  date : Str
  body : Str
deriving DecidableEq

/-- Recognize a full version-boundary line generically: `## [`, a version,
`] - `, a date window.  The version is everything before the first `] - `. -/
def boundaryOf (l : Str) : Option (Str × Str) :=
  if hasPfx (chars ("## [")) l then
    match splitOnFirst (chars ("] - ")) (l.drop 4) with
    | some (v, rest) =>
      if dateShaped (rest.take 10) then some (v, rest.take 10) else none
    | none => none
  else none

/-- Close a record: its body is the joined window, stripped. -/
def finishRec (v d : Str) (acc : List Str) : VersionRecord :=
  ⟨v, d, pyStrip (joinNL acc.reverse)⟩

/-- Line-by-line record accumulation. -/
def recordsGo : List Str → Option (Str × Str × List Str) → List VersionRecord
  | [], none => []
  | [], some (v, d, acc) => [finishRec v d acc]
  | l :: ls, cur =>
    if hasPfx (chars ("## [")) l then
      (match cur with
       | some (v, d, acc) => [finishRec v d acc]
       | none => []) ++
      (match boundaryOf l with
       | some (v, d) => recordsGo ls (some (v, d, [l.drop ((hdr v).length + 10)]))
       | none => recordsGo ls none)
    else
      match cur with
      | some (v, d, acc) => recordsGo ls (some (v, d, l :: acc))
      | none => recordsGo ls none

/-- The ordered version records of a changelog. -/
def changelogRecords (content : Str) : List VersionRecord :=
  recordsGo (splitLines content) none

/-! ### Publication-date formatting

`update_appcast` parses the extracted date with
`datetime.strptime(date_str, '%Y-%m-%d')` and formats it as
`'%a, %d %b %Y %H:%M:%S +0000'` (midnight); on a parse failure it falls
back to the current instant, which is passed in here as the pre-formatted
string `now2822`. -/

/-- Gregorian leap year. -/
def isLeap (y : Nat) : Bool := y % 4 = 0 && (y % 100 ≠ 0 || y % 400 = 0)

/-- Days in a month. -/
def monthLen (y m : Nat) : Nat :=
  if m = 2 then (if isLeap y then 29 else 28)
  else if m = 4 || m = 6 || m = 9 || m = 11 then 30
  else 31

/-- Numeric value of an ASCII digit. -/
def digitVal (c : Char) : Nat := c.toNat - 48

/-- `datetime.strptime(s, '%Y-%m-%d')` on a date-shaped string: the year,
month and day, provided they form a valid calendar date. -/
def parseYMD (s : Str) : Option (Nat × Nat × Nat) :=
  match s with
  | [a, b, c, d, _, f, g, _, i, j] =>
    if dateShaped s then
      let y := ((digitVal a * 10 + digitVal b) * 10 + digitVal c) * 10 + digitVal d
      let m := digitVal f * 10 + digitVal g
      let dd := digitVal i * 10 + digitVal j
      if 1 ≤ y ∧ 1 ≤ m ∧ m ≤ 12 ∧ 1 ≤ dd ∧ dd ≤ monthLen y m then some (y, m, dd)
      else none
    else none
  | _ => none

/-- Day of week (0 = Sunday) by Sakamoto's method. -/
def sakamoto (y m d : Nat) : Nat :=
  let t := [0, 3, 2, 5, 0, 3, 5, 1, 4, 6, 2, 4]
  let y2 := if m < 3 then y - 1 else y
  (y2 + y2 / 4 + y2 / 400 + t.getD (m - 1) 0 + d - y2 / 100) % 7

/-- `%a` weekday abbreviation. -/
def wdName (w : Nat) : Str :=
  [chars ("Sun"), chars ("Mon"), chars ("Tue"), chars ("Wed"), chars ("Thu"),
   chars ("Fri"), chars ("Sat")].getD w []

/-- `%b` month abbreviation. -/
def moName (m : Nat) : Str :=
  [chars ("Jan"), chars ("Feb"), chars ("Mar"), chars ("Apr"), chars ("May"),
   chars ("Jun"), chars ("Jul"), chars ("Aug"), chars ("Sep"), chars ("Oct"),
   chars ("Nov"), chars ("Dec")].getD (m - 1) []

/-- Decimal digits of a natural number. -/
def natChars (n : Nat) : Str := Nat.toDigits 10 n

/-- Left-pad with zeros to width `k`. -/
def padZ (k : Nat) (s : Str) : Str := List.replicate (k - s.length) (('0')) ++ s

/-- `'%a, %d %b %Y %H:%M:%S +0000'` at midnight (`%Y` is unpadded, as on
the platform the script runs on). -/
def rfc2822 (y m d : Nat) : Str :=
  wdName (sakamoto y m d) ++ chars (", ") ++ padZ 2 (natChars d) ++ [cSp] ++
  moName m ++ [cSp] ++ natChars y ++ chars (" 00:00:00 +0000")

/-- Format the extracted date, falling back to the current instant
(pre-formatted as `now2822`) when it does not parse. -/
def formatPubDate (ds now2822 : Str) : Str :=
  match parseYMD ds with
  | some (y, m, d) => rfc2822 y m d
  | none => now2822

/-! ### The feed document model

`xml.etree.ElementTree` trees are modelled only as far as the script reads
and writes them: a channel is a list of children (title elements and item
elements, in document order); an item carries the fields the serializer
emits.  `find` returns the first matching child; `findall` all of them in
order. -/

/-- The downloadable-artifact descriptor of an item.  `sig = []` plays the
role of Python's empty string: `update_appcast` reads a missing
`sparkle:edSignature` attribute as `""` and omits the attribute when the
signature string is empty. -/
structure Enclosure where
  url : Str
  lengthAttr : Str
  sig : Str
deriving DecidableEq

/-- One `<item>` element, with the children the script reads and writes.
The three sparkle fields are optional (`find` may return no element). -/
structure Item where
  title : Str
  pubDate : Str
  sparkleVersion : Option Str
  shortVersionString : Option Str
  minimumSystemVersion : Option Str
  description : Str
  enclosure : Enclosure
deriving DecidableEq

/-- A child of the `<channel>` element. -/
inductive Child where
  | title (t : Str)
  | item (it : Item)
deriving DecidableEq

/-- `channel.findall("item")`: the items in document order. -/
def itemsOf (cs : List Child) : List Item :=
  cs.filterMap (fun c => match c with | .item it => some it | _ => none)

/-- `channel.find("title")`: the first title child's text. -/
def firstTitle (cs : List Child) : Option Str :=
  cs.findSome? (fun c => match c with | .title t => some t | _ => none)

/-- Whether the channel has a title child. -/
def hasTitle (cs : List Child) : Bool := (firstTitle cs).isSome

/-- Lines 243-245: add a `<title>Notimanager</title>` child (appended at the
end, as `SubElement` does) when the channel has none. -/
def ensureTitle (cs : List Child) : List Child :=
  if hasTitle cs then cs else cs ++ [Child.title (chars ("Notimanager"))]

/-- Insertion right after the first title child. -/
def insertAfterTitleGo (x : Child) : List Child → List Child
  | [] => [x]
  | Child.title t :: rest => Child.title t :: x :: rest
  | c :: rest => c :: insertAfterTitleGo x rest

/-- Lines 282-288: insert the new item right after the first title child,
or at position 0 when the channel has no title child. -/
def insertAfterTitle (x : Child) (cs : List Child) : List Child :=
  if hasTitle cs then insertAfterTitleGo x cs else x :: cs

/-- The in-memory channel after `update_appcast` has added the new item. -/
def updateChannel (cs : List Child) (newIt : Item) : List Child :=
  insertAfterTitle (Child.item newIt) (ensureTitle cs)

/-- The new `<item>` element built by `update_appcast` (lines 247-280):
title, formatted publication date, the rendered release notes as
description, and the enclosure (signature attribute set only when the
signature string is nonempty, which the `sig` field itself records).
`today` and `now2822` stand for the two `datetime.now()` fallbacks.

The `Item` model tracks the namespace-qualified `sparkle:*` children, which
are what the serializer looks up (`find("{namespace}version")` etc., lines
319-321).  `update_appcast` creates its three sparkle children with the
literal unqualified tag names `"sparkle:version"` etc. (lines 264-266);
those children are never found again by the qualified lookups and no other
code reads them, so the built item carries `none` for all three — exactly
as in the script's own output, which omits the three sparkle elements for
newly added items. -/
def buildItem (version url sig lenStr : Str) (changelog : Option Str)
    (today now2822 : Str) : Item :=
  { title := version
    pubDate := formatPubDate (extract_version_date changelog version today) now2822
    sparkleVersion := none
    shortVersionString := none
    minimumSystemVersion := none
    description := get_release_notes changelog version
    enclosure := { url := url, lengthAttr := lenStr, sig := sig } }

/-! ### Serialization (lines 304-356 of the script)

The output is written with fixed formatting; the tokens below are the
literal fragments the script writes, chunked so that each parser step
consumes exactly one token. -/

/-- `<?xml ...?>`, the `<rss>` envelope and `<channel>` opening lines. -/
def tkHeader : Str := chars ("<?xml version=\"1.0\" encoding=\"UTF-8\"?>\n<rss xmlns:sparkle=\"http://www.andymatuschak.org/xml-namespaces/sparkle\" version=\"2.0\">\n    <channel>\n")
/-- Channel-title opening. -/
def tkChanTitleOpen : Str := chars ("        <title>")
/-- `</title>` and end of line (shared by channel and item titles). -/
def tkTitleClose : Str := chars ("</title>\n")
/-- Item opening plus item-title opening. -/
def tkItemOpen : Str := chars ("        <item>\n")
/-- Item-title opening. -/
def tkTitleOpen : Str := chars ("            <title>")
/-- pubDate opening. -/
def tkPubOpen : Str := chars ("            <pubDate>")
/-- pubDate closing. -/
def tkPubClose : Str := chars ("</pubDate>\n")
/-- sparkle:version opening. -/
def tkVerOpen : Str := chars ("            <sparkle:version>")
/-- sparkle:version closing. -/
def tkVerClose : Str := chars ("</sparkle:version>\n")
/-- sparkle:shortVersionString opening. -/
def tkShortOpen : Str := chars ("            <sparkle:shortVersionString>")
/-- sparkle:shortVersionString closing. -/
def tkShortClose : Str := chars ("</sparkle:shortVersionString>\n")
/-- sparkle:minimumSystemVersion opening. -/
def tkMinOpen : Str := chars ("            <sparkle:minimumSystemVersion>")
/-- sparkle:minimumSystemVersion closing. -/
def tkMinClose : Str := chars ("</sparkle:minimumSystemVersion>\n")
/-- Enclosure opening up to the start of the url value. -/
def tkEncOpen : Str := chars ("            <enclosure url=\"")
/-- Between the url value's closing quote and the length value. -/
def tkLenTail : Str := chars (" length=\"")
/-- After the length value's closing quote: the fixed mime type. -/
def tkTypeTail : Str := chars (" type=\"application/octet-stream\"")
/-- The signature attribute opening (written only for nonempty signatures). -/
def tkSigTail : Str := chars (" sparkle:edSignature=\"")
/-- Enclosure self-closing. -/
def tkEncEnd : Str := chars ("/>\n")
/-- Description opening with CDATA (written at column 0 by the script). -/
def tkDescOpen : Str := chars ("<description><![CDATA[")
/-- Description closing. -/
def tkDescClose : Str := chars ("]]></description>\n")
/-- Item closing. -/
def tkItemClose : Str := chars ("        </item>\n")
/-- Channel closing. -/
def tkChanClose : Str := chars ("    </channel>\n")
/-- Envelope closing. -/
def tkRssClose : Str := chars ("</rss>\n")

/-- An optional escaped element line. -/
def optLine (o c : Str) : Option Str → Str
  | none => []
  | some x => o ++ escape x ++ c

/-- The serialized enclosure line (lines 336-347): attribute values go
through `escape`; the signature attribute is written only when the
signature string is nonempty. -/
def serializeEnc (e : Enclosure) : Str :=
  tkEncOpen ++ escape e.url ++ [cQuot] ++
  tkLenTail ++ escape e.lengthAttr ++ [cQuot] ++
  tkTypeTail ++
  (if e.sig = [] then [] else tkSigTail ++ escape e.sig ++ [cQuot]) ++
  tkEncEnd

/-- The serialized form of one `<item>` (lines 325-353): every text field
and attribute value goes through `escape`; the description is embedded raw
inside CDATA. -/
def serializeItem (it : Item) : Str :=
  tkItemOpen ++
  tkTitleOpen ++ escape it.title ++ tkTitleClose ++
  tkPubOpen ++ escape it.pubDate ++ tkPubClose ++
  optLine tkVerOpen tkVerClose it.sparkleVersion ++
  optLine tkShortOpen tkShortClose it.shortVersionString ++
  optLine tkMinOpen tkMinClose it.minimumSystemVersion ++
  serializeEnc it.enclosure ++
  tkDescOpen ++ it.description ++ tkDescClose ++
  tkItemClose

/-- The serialized channel title line, when a title child exists. -/
def titleSeg (cs : List Child) : Str :=
  match firstTitle cs with
  | some t => tkChanTitleOpen ++ escape t ++ tkTitleClose
  | none => []

/-- The complete serialized document (lines 304-356): fixed envelope, the
channel title, every item in document order, and the closing tags. -/
def serializeFeed (cs : List Child) : Str :=
  tkHeader ++ titleSeg cs ++ (itemsOf cs).flatMap serializeItem ++
  tkChanClose ++ tkRssClose

/-! ### Re-parsing the serialized document

`update_appcast` re-reads the persisted feed with `ET.parse` on the next
run.  The parser below is that reconciler's view of documents in the
serializer's output format, projected onto the channel model. -/

/-- Consume a literal token. -/
def expectTk (pat s : Str) : Option Str :=
  if hasPfx pat s then some (s.drop pat.length) else none

/-- Parse an optional element line `op…cl` with entity-decoded content. -/
def tryField (op cl : Str) (s : Str) : Option (Option Str × Str) :=
  if hasPfx op s then
    (splitOnFirst cl (s.drop op.length)).map (fun pr => (some (unesc pr.1), pr.2))
  else some (none, s)

/-- Parse one serialized enclosure line. -/
def parseEnc (s : Str) : Option (Enclosure × Str) := do
  let s ← expectTk tkEncOpen s
  let (uRaw, s) ← splitOnFirst [cQuot] s
  let s ← expectTk tkLenTail s
  let (lRaw, s) ← splitOnFirst [cQuot] s
  let s ← expectTk tkTypeTail s
  let (gRaw, s) ←
    (if hasPfx tkSigTail s then splitOnFirst [cQuot] (s.drop tkSigTail.length)
     else some (([] : Str), s))
  let s ← expectTk tkEncEnd s
  some ({ url := unesc uRaw, lengthAttr := unesc lRaw, sig := unesc gRaw }, s)

/-- Parse one serialized `<item>` block. -/
def parseItem (s : Str) : Option (Item × Str) := do
  let s ← expectTk tkItemOpen s
  let s ← expectTk tkTitleOpen s
  let (tRaw, s) ← splitOnFirst tkTitleClose s
  let s ← expectTk tkPubOpen s
  let (pRaw, s) ← splitOnFirst tkPubClose s
  let (ver, s) ← tryField tkVerOpen tkVerClose s
  let (short, s) ← tryField tkShortOpen tkShortClose s
  let (minv, s) ← tryField tkMinOpen tkMinClose s
  let (enc, s) ← parseEnc s
  let s ← expectTk tkDescOpen s
  let (dRaw, s) ← splitOnFirst tkDescClose s
  let s ← expectTk tkItemClose s
  some ({ title := unesc tRaw
          pubDate := unesc pRaw
          sparkleVersion := ver
          shortVersionString := short
          minimumSystemVersion := minv
          description := dRaw
          enclosure := enc }, s)

/-- Parse the item blocks until the channel closing tag (fuel-bounded; one
unit of fuel per item suffices, and callers pass the string length). -/
def parseItems (fuel : Nat) (s : Str) : Option (List Item × Str) :=
  if hasPfx tkChanClose s then some ([], s)
  else
    match fuel with
    | 0 => none
    | n + 1 =>
      match parseItem s with
      | none => none
      | some (it, r) =>
        match parseItems n r with
        | none => none
        | some (its, r2) => some (it :: its, r2)

/-- Parse a complete serialized document back into the channel model. -/
def parseFeed (s : Str) : Option (List Child) := do
  let s ← expectTk tkHeader s
  let (tOpt, s) ← tryField tkChanTitleOpen tkTitleClose s
  let (its, s) ← parseItems s.length s
  let s ← expectTk tkChanClose s
  let s ← expectTk tkRssClose s
  if s = [] then
    some ((match tOpt with
           | some t => [Child.title t]
           | none => []) ++ its.map Child.item)
  else none

/-! ### `update_appcast` (lines 203-361) -/

/-- The fresh structure created when no usable feed exists: an `rss`
envelope with one empty channel. -/
def freshChannel : List Child := []

/-- Lines 214-235: parse the existing appcast when the file exists and is
nonempty, falling back to the fresh structure when it is absent (`none`),
empty, or fails to parse. -/
def loadChannel (file : Option Str) : List Child :=
  match file with
  | none => freshChannel
  | some s => if s = [] then freshChannel else (parseFeed s).getD freshChannel

/-- `update_appcast`: load or initialize the channel, build the new item
from the changelog and the release metadata, insert it after the title, and
serialize the complete document.

The model covers the manual file write (lines 304-356), which alone
determines the output.  The preceding `minidom` pretty-print block (lines
292-301) computes values that are never used and is omitted; note that on
the fresh-structure paths (absent, empty or unparseable feed) that block
raises `ExpatError` whenever the new signature is nonempty, because the
fresh root carries a literal `xmlns:sparkle` attribute and `ET.tostring`
emits a second declaration for the qualified signature attribute — the
script then aborts before writing.  On a parsed existing feed the block
succeeds and the write proceeds as modelled. -/
def update_appcast (file : Option Str) (version url sig lenStr : Str)
    (changelog : Option Str) (today now2822 : Str) : Str :=
  serializeFeed (updateChannel (loadChannel file)
    (buildItem version url sig lenStr changelog today now2822))

/-! ### Full regeneration (spec-modelled) -/

/-- Modelled from the spec: the deterministic placeholder download location
derived from the version string, used by the full-regeneration mode for
historical versions (the mode itself is described in the spec but no
implementation of it is under `src/`). -/
def placeholderUrl (v : Str) : Str :=
  chars ("https://example.invalid/Notimanager-") ++ v ++ chars (".dmg")

/-- A feed item built from a parsed record plus enclosure metadata (the
spec's Feed Item Builder, shared with the entry construction of
`update_appcast`). -/
def mkRecordItem (r : VersionRecord) (url sig lenStr now2822 : Str) : Item :=
  { title := r.version
    pubDate := formatPubDate r.date now2822
    sparkleVersion := some r.version
    shortVersionString := some r.version
    minimumSystemVersion := some (chars ("14.0"))
    description := docPre ++ markdown_to_html r.body ++ docPost
    enclosure := { url := url, lengthAttr := lenStr, sig := sig } }

/-- Modelled from the spec: full regeneration builds one item per changelog
record, in changelog order; the record matching the active release carries
the real enclosure metadata, every other record carries the placeholder
enclosure (placeholder url, zero length, no signature). -/
def fullRegenerate (recs : List VersionRecord) (active url sig lenStr now2822 : Str) :
    List Item :=
  recs.map (fun r =>
    if r.version = active then mkRecordItem r url sig lenStr now2822
    else mkRecordItem r (placeholderUrl r.version) [] (chars ("0")) now2822)

/-! ### Claim-support definitions -/

/-- Number of occurrences of a given line in a list of lines. -/
def countEq (a : Str) : List Str → Nat
  | [] => 0
  | l :: ls => (if l = a then 1 else 0) + countEq a ls

/-- Number of maximal runs of `<li>` elements in a list of rendered
elements, where empty placeholders are transparent (they neither extend nor
break a run) and any other element breaks a run; `inR` records whether a
run is open.  This is the specification-side count of list groups. -/
def liRuns : List Str → Bool → Nat
  | [], _ => 0
  | l :: ls, inR =>
    if hasPfx (chars ("<li>")) l then (if inR then 0 else 1) + liRuns ls true
    else if l = [] then liRuns ls inR
    else liRuns ls false

/-- The markup elements the renderer itself emits. -/
def knownTags : List Str :=
  [chars ("<h4>"), chars ("</h4>"), chars ("<ul>"), chars ("</ul>"), chars ("<li>"),
   chars ("</li>"), chars ("<strong>"), chars ("</strong>"), chars ("<code>"),
   chars ("</code>"), chars ("<p>"), chars ("</p>")]

/-- Every `<` in the string opens one of the renderer's own markup
elements; a violation exhibits an unescaped markup-significant character in
plain text. -/
def angleSafe : Str → Bool
  | [] => true
  | c :: rest =>
    if c = cLt then knownTags.any (fun t => hasPfx t (c :: rest)) && angleSafe rest
    else angleSafe rest

/-- The date captured from one boundary line, when the line matches. -/
def lineDate (v l : Str) : Option Str :=
  if lineMatchesHeader v l then some ((l.drop (hdr v).length).take 10) else none

/-! ### Basic lemmas about the string utilities -/

theorem hasPfx_self (p t : Str) : hasPfx p (p ++ t) = true := by
  induction p with
  | nil => simp [hasPfx]
  | cons c ps ih => simp [hasPfx, ih]

theorem hasPfx_iff (p s : Str) : hasPfx p s = true ↔ ∃ t, s = p ++ t := by
  induction p generalizing s with
  | nil => simp [hasPfx]
  | cons c ps ih =>
    cases s with
    | nil => simp [hasPfx]
    | cons d t =>
      simp only [hasPfx, Bool.and_eq_true, decide_eq_true_eq, ih]
      constructor
      · rintro ⟨rfl, u, rfl⟩; exact ⟨u, rfl⟩
      · rintro ⟨u, h⟩
        cases h
        exact ⟨rfl, u, rfl⟩

theorem dropSelf (a b : Str) : (a ++ b).drop a.length = b := by
  induction a with
  | nil => rfl
  | cons c cs ih => simp [ih]

theorem splitOnFirst_exact (pat b : Str) (hpat : pat ≠ []) :
    splitOnFirst pat (pat ++ b) = some ([], b) := by
  cases pat with
  | nil => exact absurd rfl hpat
  | cons p ps =>
    have h1 : hasPfx (p :: ps) (p :: (ps ++ b)) = true := by
      simpa using hasPfx_self (p :: ps) b
    have h2 : (p :: (ps ++ b)).drop (p :: ps).length = b := by
      simp [dropSelf (p :: ps) b]
    show splitOnFirst (p :: ps) (p :: (ps ++ b)) = _
    rw [splitOnFirst, h1]
    simp [h2]

theorem splitOnFirst_boundary (pat a b : Str) (hpat : pat ≠ [])
    (h : ∀ t, t ≠ [] → (∃ u, a = u ++ t) → hasPfx pat (t ++ (pat ++ b)) = false) :
    splitOnFirst pat (a ++ (pat ++ b)) = some (a, b) := by
  induction a with
  | nil => simpa using splitOnFirst_exact pat b hpat
  | cons c a ih =>
    have hfalse : hasPfx pat (c :: (a ++ (pat ++ b))) = false := by
      have := h (c :: a) (by simp) ⟨[], rfl⟩
      simpa using this
    have ihv : splitOnFirst pat (a ++ (pat ++ b)) = some (a, b) :=
      ih (fun t ht ⟨u, hu⟩ => h t ht ⟨c :: u, by rw [hu]; rfl⟩)
    show splitOnFirst pat (c :: (a ++ (pat ++ b))) = _
    rw [splitOnFirst, hfalse]
    simp [ihv]

theorem splitOnFirst_notmem (pat a b : Str) (p0 : Char) (ps : Str)
    (hp : pat = p0 :: ps) (ha : p0 ∉ a) :
    splitOnFirst pat (a ++ (pat ++ b)) = some (a, b) := by
  refine splitOnFirst_boundary pat a b (by simp [hp]) ?_
  rintro t ht ⟨u, rfl⟩
  cases t with
  | nil => exact absurd rfl ht
  | cons x xs =>
    have hx : p0 ≠ x := by
      intro hcontr
      exact ha (by simp [hcontr])
    rw [← Bool.not_eq_true, hasPfx_iff]
    rintro ⟨r, hr⟩
    rw [hp] at hr
    have hhd : x = p0 := by simpa using congrArg List.head? hr
    exact hx hhd.symm

theorem splitOnFirst_none_no_occ (pat s : Str) (hpat : pat ≠ [])
    (hnone : splitOnFirst pat s = none) : ∀ u v, s ≠ u ++ (pat ++ v) := by
  induction s with
  | nil =>
    intro u v h
    cases pat with
    | nil => exact hpat rfl
    | cons p ps => simp at h
  | cons c rest ih =>
    intro u v h
    rw [splitOnFirst] at hnone
    by_cases hpfx : hasPfx pat (c :: rest) = true
    · rw [hpfx] at hnone; simp at hnone
    · rw [Bool.not_eq_true] at hpfx
      rw [hpfx] at hnone
      simp only [Bool.false_eq_true, if_false, Option.map_eq_none'] at hnone
      cases u with
      | nil =>
        simp only [List.nil_append] at h
        rw [h, hasPfx_self] at hpfx
        simp at hpfx
      | cons d u =>
        have hres : rest = u ++ (pat ++ v) := by
          simpa using congrArg List.tail h
        exact ih hnone u v hres

/-! ### Lemmas about `escape` and `unesc` -/

theorem not_lt_esc1 (c : Char) : cLt ∉ esc1 c := by
  unfold esc1
  split_ifs with h1 h2 h3 h4 h5
  · decide
  · decide
  · decide
  · decide
  · decide
  · intro hmem
    exact h2 (List.mem_singleton.mp hmem).symm

theorem not_gt_esc1 (c : Char) : cGt ∉ esc1 c := by
  unfold esc1
  split_ifs with h1 h2 h3 h4 h5
  · decide
  · decide
  · decide
  · decide
  · decide
  · intro hmem
    exact h3 (List.mem_singleton.mp hmem).symm

theorem not_quot_esc1 (c : Char) : cQuot ∉ esc1 c := by
  unfold esc1
  split_ifs with h1 h2 h3 h4 h5
  · decide
  · decide
  · decide
  · decide
  · decide
  · intro hmem
    exact h4 (List.mem_singleton.mp hmem).symm

theorem not_lt_escape (s : Str) : cLt ∉ escape s := by
  intro hmem
  rcases List.mem_flatMap.mp hmem with ⟨c, _, hc⟩
  exact not_lt_esc1 c hc

theorem not_gt_escape (s : Str) : cGt ∉ escape s := by
  intro hmem
  rcases List.mem_flatMap.mp hmem with ⟨c, _, hc⟩
  exact not_gt_esc1 c hc

theorem not_quot_escape (s : Str) : cQuot ∉ escape s := by
  intro hmem
  rcases List.mem_flatMap.mp hmem with ⟨c, _, hc⟩
  exact not_quot_esc1 c hc

theorem escape_cons (c : Char) (cs : Str) : escape (c :: cs) = esc1 c ++ escape cs := by
  simp [escape]

theorem unescF_escape (s : Str) : ∀ n, (escape s).length ≤ n → unescF n (escape s) = s := by
  induction s with
  | nil => intro n _; cases n <;> rfl
  | cons c cs ih =>
    intro n hn
    by_cases h1 : c = cAmp
    · subst h1
      have hlen : (escape (cAmp :: cs)).length = 5 + (escape cs).length := by
        simp [escape, esc1]; decide
      cases n with
      | zero => omega
      | succ m =>
        have hstep : unescF (m + 1) (escape (cAmp :: cs)) = cAmp :: unescF m (escape cs) := rfl
        rw [hstep, ih m (by omega)]
    · by_cases h2 : c = cLt
      · subst h2
        have hlen : (escape (cLt :: cs)).length = 4 + (escape cs).length := by
          simp [escape, esc1]; decide
        cases n with
        | zero => omega
        | succ m =>
          have hstep : unescF (m + 1) (escape (cLt :: cs)) = cLt :: unescF m (escape cs) := rfl
          rw [hstep, ih m (by omega)]
      · by_cases h3 : c = cGt
        · subst h3
          have hlen : (escape (cGt :: cs)).length = 4 + (escape cs).length := by
            simp [escape, esc1]; decide
          cases n with
          | zero => omega
          | succ m =>
            have hstep : unescF (m + 1) (escape (cGt :: cs)) = cGt :: unescF m (escape cs) := rfl
            rw [hstep, ih m (by omega)]
        · by_cases h4 : c = cQuot
          · subst h4
            have hlen : (escape (cQuot :: cs)).length = 6 + (escape cs).length := by
              simp [escape, esc1]; decide
            cases n with
            | zero => omega
            | succ m =>
              have hstep : unescF (m + 1) (escape (cQuot :: cs)) = cQuot :: unescF m (escape cs) := rfl
              rw [hstep, ih m (by omega)]
          · by_cases h5 : c = cApos
            · subst h5
              have hlen : (escape (cApos :: cs)).length = 6 + (escape cs).length := by
                simp [escape, esc1]; decide
              cases n with
              | zero => omega
              | succ m =>
                have hstep : unescF (m + 1) (escape (cApos :: cs)) = cApos :: unescF m (escape cs) := rfl
                rw [hstep, ih m (by omega)]
            · have he : esc1 c = [c] := by simp [esc1, h1, h2, h3, h4, h5]
              have hform : escape (c :: cs) = c :: escape cs := by
                rw [escape_cons, he]; rfl
              have hlen : (escape (c :: cs)).length = 1 + (escape cs).length := by
                rw [hform]; simp; omega
              cases n with
              | zero => omega
              | succ m =>
                rw [hform]
                have hstep : unescF (m + 1) (c :: escape cs) = c :: unescF m (escape cs) := by
                  simp [unescF, h1]
                rw [hstep, ih m (by omega)]

theorem unesc_escape (s : Str) : unesc (escape s) = s :=
  unescF_escape s (escape s).length le_rfl

/-! ### Lemmas for the list-grouping pass (C4) -/

theorem countEq_append (a : Str) (l1 l2 : List Str) :
    countEq a (l1 ++ l2) = countEq a l1 + countEq a l2 := by
  induction l1 with
  | nil => simp [countEq]
  | cons x xs ih => simp [countEq, ih]; omega

theorem li_ne_tags (l : Str) (hli : hasPfx (chars ("<li>")) l = true) :
    l ≠ chars ("<ul>") ∧ l ≠ chars ("</ul>") := by
  rcases (hasPfx_iff _ _).mp hli with ⟨t, rfl⟩
  constructor
  · intro heq
    have hL : (chars ("<li>") ++ t).get? 1 = some (('l')) := rfl
    rw [heq] at hL
    exact absurd hL (by decide)
  · intro heq
    have hL : (chars ("<li>") ++ t).get? 1 = some (('l')) := rfl
    rw [heq] at hL
    exact absurd hL (by decide)

theorem htmlLines_shape (md : Str) :
    ∀ l ∈ htmlLines md, l ≠ chars ("<ul>") ∧ l ≠ chars ("</ul>") := by
  intro l hl
  rcases List.mem_filterMap.mp hl with ⟨src, _, hcl⟩
  unfold classifyLine at hcl
  split_ifs at hcl with h1 h2 h3
  · rcases Option.some.inj hcl with rfl
    constructor
    · intro heq
      have hL : (chars ("<h4>") ++ escape (pyStrip (src.drop 4)) ++ chars ("</h4>")).get? 1
          = some (('h')) := rfl
      rw [heq] at hL
      exact absurd hL (by decide)
    · intro heq
      have hL : (chars ("<h4>") ++ escape (pyStrip (src.drop 4)) ++ chars ("</h4>")).get? 1
          = some (('h')) := rfl
      rw [heq] at hL
      exact absurd hL (by decide)
  · rcases Option.some.inj hcl with rfl
    refine li_ne_tags _ ?_
    have : hasPfx (chars ("<li>"))
        (chars ("<li>") ++ (subCode (subBold (stripBullet src)) ++ chars ("</li>"))) = true :=
      hasPfx_self _ _
    simpa using this
  · rcases Option.some.inj hcl with rfl
    exact ⟨by decide, by decide⟩

theorem wrapGo_count (ls : List Str) (b : Bool)
    (h : ∀ l ∈ ls, l ≠ chars ("<ul>") ∧ l ≠ chars ("</ul>")) :
    countEq (chars ("<ul>")) (wrapGo ls b) = liRuns ls b ∧
    countEq (chars ("</ul>")) (wrapGo ls b) = liRuns ls b + (if b then 1 else 0) := by
  have hd1 : (chars ("<ul>") : Str) ≠ chars ("</ul>") := by decide
  have hd2 : (chars ("</ul>") : Str) ≠ chars ("<ul>") := by decide
  induction ls generalizing b with
  | nil =>
    cases b <;> simp [wrapGo, liRuns, countEq, hd1, hd2]
  | cons l ls ih =>
    have hl := h l (by simp)
    have hrest : ∀ x ∈ ls, x ≠ chars ("<ul>") ∧ x ≠ chars ("</ul>") :=
      fun x hx => h x (by simp [hx])
    by_cases hli : hasPfx (chars ("<li>")) l = true
    · have hne := li_ne_tags l hli
      have ihv := ih true hrest
      rw [wrapGo, hli]
      rw [liRuns.eq_def]
      simp only [hli, if_true]
      cases b with
      | true =>
        simp only [if_true]
        rw [countEq_append, countEq_append]
        simp [countEq, hne.1, hne.2, ihv.1, ihv.2]
      | false =>
        simp only [Bool.false_eq_true, if_false]
        rw [countEq_append, countEq_append]
        simp [countEq, hne.1, hne.2, ihv.1, ihv.2, hd1, hd2]
        omega
    · rw [Bool.not_eq_true] at hli
      by_cases hblank : l = []
      · subst hblank
        have ihv := ih b hrest
        rw [wrapGo]
        simp only [hli]
        rw [liRuns.eq_def]
        simp only [hli]
        simp [countEq, ihv.1, ihv.2]
      · have ihv := ih false hrest
        rw [wrapGo]
        simp only [hli, Bool.false_eq_true, if_false, if_neg, hblank, ne_eq,
          not_false_iff, if_true]
        rw [liRuns.eq_def]
        simp only [hli, Bool.false_eq_true, if_false, hblank, if_neg]
        cases b with
        | true =>
          rw [countEq_append, countEq_append]
          simp [countEq, hl.1, hl.2, ihv.1, ihv.2, hd1, hd2]
          omega
        | false =>
          rw [countEq_append, countEq_append]
          simp [countEq, hl.1, hl.2, ihv.1, ihv.2, hd1, hd2]

/-! ### Lemmas for the changelog searches (C6, C8) -/

theorem findLine_none (p : Str → Bool) (ls : List Str)
    (h : ∀ l ∈ ls, p l = false) : findLine p ls = none := by
  induction ls with
  | nil => rfl
  | cons l ls ih =>
    have h0 := h l (by simp)
    simp [findLine, h0, ih (fun x hx => h x (by simp [hx]))]

theorem evd_go (v : Str) (ls : List Str) :
    (match findLine (lineMatchesHeader v) ls with
     | none => none
     | some (l, _) => some ((l.drop (hdr v).length).take 10))
      = ls.findSome? (lineDate v) := by
  induction ls with
  | nil => rfl
  | cons l ls ih =>
    by_cases hp : lineMatchesHeader v l = true
    · simp [findLine, hp, lineDate]
    · rw [Bool.not_eq_true] at hp
      simp [findLine, hp, lineDate, ih]

theorem evdSearch_eq_findSome (c v : Str) :
    evdSearch c v = (splitLines c).findSome? (lineDate v) := by
  unfold evdSearch
  exact evd_go v (splitLines c)

/-! ### Lemmas for the channel update (C1) -/

theorem itemsOf_append (a b : List Child) : itemsOf (a ++ b) = itemsOf a ++ itemsOf b := by
  simp [itemsOf]

theorem hasTitle_cons_item (it : Item) (cs : List Child) :
    hasTitle (Child.item it :: cs) = hasTitle cs := by
  simp [hasTitle, firstTitle]

theorem itemsOf_ensureTitle (cs : List Child) : itemsOf (ensureTitle cs) = itemsOf cs := by
  unfold ensureTitle
  by_cases h : hasTitle cs = true
  · rw [if_pos h]
  · rw [Bool.not_eq_true] at h
    rw [if_neg (by simp [h])]
    simp [itemsOf_append, itemsOf]

theorem hasTitle_ensureTitle (cs : List Child) : hasTitle (ensureTitle cs) = true := by
  unfold ensureTitle
  by_cases h : hasTitle cs = true
  · rw [if_pos h]; exact h
  · rw [Bool.not_eq_true] at h
    rw [if_neg (by simp [h])]
    unfold hasTitle firstTitle at h ⊢
    rw [List.findSome?_append]
    cases hf : cs.findSome? fun c => match c with
      | Child.title t => some t
      | x => none
    · simp [List.findSome?]
    · simp [hf] at h

theorem insertGo_items (x : Item) (cs : List Child) (h : hasTitle cs = true) :
    ∃ l1 l2, itemsOf (insertAfterTitleGo (Child.item x) cs) = l1 ++ x :: l2 ∧
      l1 ++ l2 = itemsOf cs := by
  induction cs with
  | nil => simp [hasTitle, firstTitle] at h
  | cons c rest ih =>
    cases c with
    | title t =>
      exact ⟨[], itemsOf rest, by simp [insertAfterTitleGo, itemsOf], by simp [itemsOf]⟩
    | item i =>
      rw [hasTitle_cons_item] at h
      rcases ih h with ⟨l1, l2, h1, h2⟩
      refine ⟨i :: l1, l2, ?_, ?_⟩
      · simp [insertAfterTitleGo, itemsOf] at h1 ⊢
        simpa [itemsOf] using h1
      · show (i :: l1) ++ l2 = itemsOf (Child.item i :: rest)
        rw [List.cons_append, h2]
        simp [itemsOf]

theorem update_items (cs : List Child) (x : Item) :
    ∃ l1 l2, itemsOf (updateChannel cs x) = l1 ++ x :: l2 ∧ l1 ++ l2 = itemsOf cs := by
  unfold updateChannel insertAfterTitle
  rw [hasTitle_ensureTitle, if_pos rfl]
  rcases insertGo_items x (ensureTitle cs) (hasTitle_ensureTitle cs) with ⟨l1, l2, h1, h2⟩
  exact ⟨l1, l2, h1, by rw [h2, itemsOf_ensureTitle]⟩

theorem flatMap_occurs (f : Item → Str) (x : Item) (l : List Item) (hx : x ∈ l) :
    ∃ u w, l.flatMap f = u ++ (f x ++ w) := by
  rcases List.append_of_mem hx with ⟨s, t, rfl⟩
  exact ⟨s.flatMap f, t.flatMap f, by simp⟩

/-! ### Lemmas for the serializer round trip (C3) -/

theorem expect_append (pat t : Str) : expectTk pat (pat ++ t) = some t := by
  unfold expectTk
  rw [hasPfx_self, if_pos rfl, dropSelf]

theorem splitQuote (x t : Str) :
    splitOnFirst [cQuot] (escape x ++ cQuot :: t) = some (escape x, t) := by
  have h := splitOnFirst_notmem [cQuot] (escape x) t cQuot [] rfl (not_quot_escape x)
  simpa using h

theorem splitLtClose (cl x t : Str) (hcl : ∃ tail, cl = cLt :: tail) :
    splitOnFirst cl (escape x ++ (cl ++ t)) = some (escape x, t) := by
  rcases hcl with ⟨tail, rfl⟩
  exact splitOnFirst_notmem _ (escape x) t cLt tail rfl (not_lt_escape x)

theorem unesc_nil : unesc [] = [] := rfl

theorem noSig_after_type (t : Str) : hasPfx tkSigTail (tkEncEnd ++ t) = false := rfl

theorem parseEnc_ok (e : Enclosure) (rest : Str) :
    parseEnc (serializeEnc e ++ rest) = some (e, rest) := by
  rcases e with ⟨u, ln, sg⟩
  by_cases hs : sg = []
  · subst hs
    unfold parseEnc serializeEnc
    simp [expect_append, splitQuote, unesc_escape, noSig_after_type, unesc_nil]
  · unfold parseEnc serializeEnc
    rw [if_neg hs]
    simp [expect_append, splitQuote, unesc_escape, hasPfx_self, dropSelf]

theorem tryField_some (op cl x t : Str) (hcl : ∃ tail, cl = cLt :: tail) :
    tryField op cl (op ++ (escape x ++ (cl ++ t))) = some (some x, t) := by
  unfold tryField
  rw [hasPfx_self, if_pos rfl, dropSelf, splitLtClose cl x t hcl]
  simp [unesc_escape]

theorem tryField_none (op cl s : Str) (h : hasPfx op s = false) :
    tryField op cl s = some (none, s) := by
  unfold tryField
  rw [h]
  simp

theorem tryVer_some (x t : Str) :
    tryField tkVerOpen tkVerClose (tkVerOpen ++ (escape x ++ (tkVerClose ++ t)))
      = some (some x, t) :=
  tryField_some _ _ x t ⟨chars ("/sparkle:version>\n"), rfl⟩

theorem tryShort_some (x t : Str) :
    tryField tkShortOpen tkShortClose (tkShortOpen ++ (escape x ++ (tkShortClose ++ t)))
      = some (some x, t) :=
  tryField_some _ _ x t ⟨chars ("/sparkle:shortVersionString>\n"), rfl⟩

theorem tryMin_some (x t : Str) :
    tryField tkMinOpen tkMinClose (tkMinOpen ++ (escape x ++ (tkMinClose ++ t)))
      = some (some x, t) :=
  tryField_some _ _ x t ⟨chars ("/sparkle:minimumSystemVersion>\n"), rfl⟩

theorem tryVer_skip_short (t : Str) :
    tryField tkVerOpen tkVerClose (tkShortOpen ++ t) = some (none, tkShortOpen ++ t) :=
  tryField_none _ _ _ rfl

theorem tryVer_skip_min (t : Str) :
    tryField tkVerOpen tkVerClose (tkMinOpen ++ t) = some (none, tkMinOpen ++ t) :=
  tryField_none _ _ _ rfl

theorem tryVer_skip_enc (e : Enclosure) (t : Str) :
    tryField tkVerOpen tkVerClose (serializeEnc e ++ t)
      = some (none, serializeEnc e ++ t) :=
  tryField_none _ _ _ rfl

theorem tryShort_skip_min (t : Str) :
    tryField tkShortOpen tkShortClose (tkMinOpen ++ t) = some (none, tkMinOpen ++ t) :=
  tryField_none _ _ _ rfl

theorem tryShort_skip_enc (e : Enclosure) (t : Str) :
    tryField tkShortOpen tkShortClose (serializeEnc e ++ t)
      = some (none, serializeEnc e ++ t) :=
  tryField_none _ _ _ rfl

theorem tryMin_skip_enc (e : Enclosure) (t : Str) :
    tryField tkMinOpen tkMinClose (serializeEnc e ++ t)
      = some (none, serializeEnc e ++ t) :=
  tryField_none _ _ _ rfl

theorem splitTitleClose (x t : Str) :
    splitOnFirst tkTitleClose (escape x ++ (tkTitleClose ++ t)) = some (escape x, t) :=
  splitLtClose _ x t ⟨chars ("/title>\n"), rfl⟩

theorem splitPubClose (x t : Str) :
    splitOnFirst tkPubClose (escape x ++ (tkPubClose ++ t)) = some (escape x, t) :=
  splitLtClose _ x t ⟨chars ("/pubDate>\n"), rfl⟩

theorem splitOnFirst_cdata (d t : Str)
    (h : splitOnFirst (chars ("]]>")) d = none) :
    splitOnFirst tkDescClose (d ++ (tkDescClose ++ t)) = some (d, t) := by
  have hno := splitOnFirst_none_no_occ (chars ("]]>")) d (by decide) h
  refine splitOnFirst_boundary tkDescClose d t (by decide) ?_
  rintro u hu ⟨w, hw⟩
  cases u with
  | nil => exact absurd rfl hu
  | cons a u1 =>
    cases u1 with
    | nil =>
      rw [← Bool.not_eq_true, hasPfx_iff]
      rintro ⟨r, hr⟩
      have h1 : ((a :: ([] : Str)) ++ (tkDescClose ++ t)).get? 2 = some ((']')) := rfl
      rw [hr] at h1
      have h2 : (tkDescClose ++ r).get? 2 = some (('>')) := rfl
      rw [h2] at h1
      exact absurd h1 (by decide)
    | cons b u2 =>
      cases u2 with
      | nil =>
        rw [← Bool.not_eq_true, hasPfx_iff]
        rintro ⟨r, hr⟩
        have h1 : ((a :: b :: ([] : Str)) ++ (tkDescClose ++ t)).get? 2 = some ((']')) := rfl
        rw [hr] at h1
        have h2 : (tkDescClose ++ r).get? 2 = some (('>')) := rfl
        rw [h2] at h1
        exact absurd h1 (by decide)
      | cons c2 u3 =>
        rw [← Bool.not_eq_true, hasPfx_iff]
        rintro ⟨r, hr⟩
        have ha : a = (']') := by
          have hx : ((a :: b :: c2 :: u3) ++ (tkDescClose ++ t)).get? 0 = some a := rfl
          rw [hr] at hx
          have hy : (tkDescClose ++ r).get? 0 = some ((']')) := rfl
          exact Option.some.inj (hx.symm.trans hy)
        have hb : b = (']') := by
          have hx : ((a :: b :: c2 :: u3) ++ (tkDescClose ++ t)).get? 1 = some b := rfl
          rw [hr] at hx
          have hy : (tkDescClose ++ r).get? 1 = some ((']')) := rfl
          exact Option.some.inj (hx.symm.trans hy)
        have hc : c2 = (('>')) := by
          have hx : ((a :: b :: c2 :: u3) ++ (tkDescClose ++ t)).get? 2 = some c2 := rfl
          rw [hr] at hx
          have hy : (tkDescClose ++ r).get? 2 = some (('>')) := rfl
          exact Option.some.inj (hx.symm.trans hy)
        subst ha
        subst hb
        subst hc
        exact hno w u3 (by rw [hw]; rfl)

set_option maxHeartbeats 1600000 in
theorem parseItem_ok (it : Item) (rest : Str)
    (hdesc : splitOnFirst (chars ("]]>")) it.description = none) :
    parseItem (serializeItem it ++ rest) = some (it, rest) := by
  rcases it with ⟨ti, pd, v, sv, mv, d, e⟩
  have hsplitd : ∀ t : Str, splitOnFirst tkDescClose (d ++ (tkDescClose ++ t))
      = some (d, t) := fun t => splitOnFirst_cdata d t hdesc
  unfold parseItem serializeItem
  cases v <;> cases sv <;> cases mv <;>
    (simp only [optLine, List.append_assoc, List.nil_append]
     simp only [expect_append, Option.bind_eq_bind, Option.some_bind,
       splitTitleClose, splitPubClose, tryVer_some, tryShort_some, tryMin_some,
       tryVer_skip_short, tryVer_skip_min, tryVer_skip_enc, tryShort_skip_min,
       tryShort_skip_enc, tryMin_skip_enc, parseEnc_ok, hsplitd, unesc_escape])

theorem chanClose_not_serializeItem (it : Item) (t : Str) :
    hasPfx tkChanClose (serializeItem it ++ t) = false := rfl

theorem chanTitle_not_serializeItem (it : Item) (t : Str) :
    hasPfx tkChanTitleOpen (serializeItem it ++ t) = false := rfl

theorem chanTitle_not_close (t : Str) :
    hasPfx tkChanTitleOpen (tkChanClose ++ t) = false := rfl

theorem tryChanTitle_some (x t : Str) :
    tryField tkChanTitleOpen tkTitleClose
        (tkChanTitleOpen ++ (escape x ++ (tkTitleClose ++ t)))
      = some (some x, t) :=
  tryField_some _ _ x t ⟨chars ("/title>\n"), rfl⟩

theorem expectRss : expectTk tkRssClose tkRssClose = some [] := rfl

theorem serializeItem_length_pos (it : Item) : 1 ≤ (serializeItem it).length := by
  have h15 : (tkItemOpen).length = 15 := by decide
  simp [serializeItem, List.length_append, h15]
  omega

theorem items_length_le (l : List Item) (r : Str) :
    l.length ≤ (l.flatMap serializeItem ++ r).length := by
  induction l with
  | nil => simp
  | cons it its ih =>
    have h1 := serializeItem_length_pos it
    simp only [List.flatMap_cons, List.length_cons, List.append_assoc,
      List.length_append] at ih ⊢
    omega

theorem parseItems_ok (items : List Item) (rest : Str)
    (hrest : hasPfx tkChanClose rest = true)
    (hdesc : ∀ it ∈ items, splitOnFirst (chars ("]]>")) it.description = none) :
    ∀ fuel, items.length ≤ fuel →
      parseItems fuel (items.flatMap serializeItem ++ rest) = some (items, rest) := by
  induction items with
  | nil =>
    intro fuel _
    rw [List.flatMap_nil, List.nil_append]
    unfold parseItems
    rw [hrest]
    simp
  | cons it its ih =>
    intro fuel hfuel
    have hstop : hasPfx tkChanClose
        (serializeItem it ++ (its.flatMap serializeItem ++ rest)) = false :=
      chanClose_not_serializeItem it _
    cases fuel with
    | zero => simp at hfuel
    | succ n =>
      unfold parseItems
      rw [List.flatMap_cons, List.append_assoc, hstop]
      rw [if_neg (by simp : ¬ (false = true))]
      rw [parseItem_ok it _ (hdesc it (by simp))]
      have hih := ih (fun x hx => hdesc x (by simp [hx])) n (by simpa using hfuel)
      show (match parseItems n (its.flatMap serializeItem ++ rest) with
            | none => none
            | some (its2, r2) => some (it :: its2, r2)) = some (it :: its, rest)
      rw [hih]

theorem parseFeed_serializeFeed (cs : List Child)
    (hdesc : ∀ it ∈ itemsOf cs, splitOnFirst (chars ("]]>")) it.description = none) :
    parseFeed (serializeFeed cs)
      = some ((match firstTitle cs with
               | some t => [Child.title t]
               | none => []) ++ (itemsOf cs).map Child.item) := by
  have hpi := parseItems_ok (itemsOf cs) (tkChanClose ++ tkRssClose)
    (hasPfx_self _ _) hdesc
    ((itemsOf cs).flatMap serializeItem ++ (tkChanClose ++ tkRssClose)).length
    (items_length_le _ _)
  unfold parseFeed serializeFeed titleSeg
  cases hft : firstTitle cs with
  | some t =>
    simp only [List.append_assoc]
    simp only [expect_append, Option.bind_eq_bind, Option.some_bind,
      tryChanTitle_some, hpi, expectRss]
    simp
  | none =>
    simp only [List.nil_append, List.append_assoc]
    cases hits : itemsOf cs with
    | nil =>
      have htf : tryField tkChanTitleOpen tkTitleClose
          (tkChanClose ++ tkRssClose) = some (none, tkChanClose ++ tkRssClose) :=
        tryField_none _ _ _ (chanTitle_not_close _)
      rw [hits] at hpi
      simp only [List.flatMap_nil, List.nil_append] at hpi
      simp only [expect_append, Option.bind_eq_bind, Option.some_bind,
        List.flatMap_nil, List.nil_append, htf, hpi, expectRss]
      simp
    | cons it its =>
      have htf : tryField tkChanTitleOpen tkTitleClose
          (serializeItem it ++ (its.flatMap serializeItem ++ (tkChanClose ++ tkRssClose)))
          = some (none, serializeItem it ++ (its.flatMap serializeItem ++ (tkChanClose ++ tkRssClose))) :=
        tryField_none _ _ _ (chanTitle_not_serializeItem it _)
      rw [hits] at hpi
      simp only [List.flatMap_cons, List.append_assoc] at hpi
      simp only [expect_append, Option.bind_eq_bind, Option.some_bind,
        List.flatMap_cons, List.append_assoc, htf, hpi, expectRss]
      simp

theorem itemsOf_map_item (l : List Item) : itemsOf (l.map Child.item) = l := by
  induction l with
  | nil => rfl
  | cons it its ih => simp [itemsOf] at ih ⊢; exact ih

/-! ### Claim theorems -/

/-- C2: the changelog consisting of the line `## [2.1.5] - 2026-01-18`
followed by `### Fixed` and `- Fixed **crash** on launch` parses to exactly
one record with version `2.1.5` and date `2026-01-18`; the date search
captures `2026-01-18`; the release-notes window is the two body lines; and
rendering that body yields exactly
`<h4>Fixed</h4>\n<ul>\n<li>Fixed <strong>crash</strong> on launch</li>\n</ul>`. -/
theorem claim_C2 :
    changelogRecords (chars ("## [2.1.5] - 2026-01-18\n### Fixed\n- Fixed **crash** on launch"))
      = [⟨chars ("2.1.5"), chars ("2026-01-18"),
          chars ("### Fixed\n- Fixed **crash** on launch")⟩] ∧
    evdSearch (chars ("## [2.1.5] - 2026-01-18\n### Fixed\n- Fixed **crash** on launch"))
      (chars ("2.1.5")) = some (chars ("2026-01-18")) ∧
    grnBody (chars ("## [2.1.5] - 2026-01-18\n### Fixed\n- Fixed **crash** on launch"))
      (chars ("2.1.5")) = some (chars ("### Fixed\n- Fixed **crash** on launch")) ∧
    markdown_to_html (chars ("### Fixed\n- Fixed **crash** on launch"))
      = chars ("<h4>Fixed</h4>\n<ul>\n<li>Fixed <strong>crash</strong> on launch</li>\n</ul>") := by
  refine ⟨by decide, by decide, by decide, by decide⟩

/-- C5 counterexample: it is not the case that every rendered body is free
of unescaped markup-significant characters: for the body `- a < b` the
literal `<` of the bullet's plain text reaches the output unescaped (the
renderer escapes subsection-header text but not bullet text). -/
theorem claim_C5_counterexample :
    ¬ (∀ md : Str, angleSafe (markdown_to_html md) = true) := by
  intro h
  exact absurd (h (chars ("- a < b"))) (by decide)

/-- C5 (amended): subsection-header text is escaped — the escaping
primitive never leaves a raw `<` or `>` in its output — but bullet-entry
text receives only the bold and inline-code substitutions and is emitted
unescaped, as the line `- a < b` shows. -/
theorem claim_C5_amended :
    (∀ t : Str, classifyLine (chars ("### ") ++ t)
        = some (chars ("<h4>") ++ escape (pyStrip t) ++ chars ("</h4>"))) ∧
    (∀ s : Str, cLt ∉ escape s ∧ cGt ∉ escape s) ∧
    classifyLine (chars ("- a < b")) = some (chars ("<li>a < b</li>")) ∧
    markdown_to_html (chars ("- a < b")) = chars ("<ul>\n<li>a < b</li>\n</ul>") :=
  ⟨fun _ => rfl, fun s => ⟨not_lt_escape s, not_gt_escape s⟩, by decide, by decide⟩

/-- C4: for every body text the grouping pass emits exactly one opening and
one closing list-container marker per maximal run of `<li>` elements (blank
placeholders are transparent); concretely, three consecutive bullets yield
one `<ul>`/`</ul>` pair around all three entries, a subsection header
between two bullets yields two separate containers, and a blank line does
not close an open container. -/
theorem claim_C4 :
    (∀ md : Str,
      countEq (chars ("<ul>")) (wrapLists (htmlLines md)) = liRuns (htmlLines md) false ∧
      countEq (chars ("</ul>")) (wrapLists (htmlLines md)) = liRuns (htmlLines md) false) ∧
    markdown_to_html (chars ("- a\n- b\n- c"))
      = chars ("<ul>\n<li>a</li>\n<li>b</li>\n<li>c</li>\n</ul>") ∧
    markdown_to_html (chars ("- a\n### H\n- b"))
      = chars ("<ul>\n<li>a</li>\n</ul>\n<h4>H</h4>\n<ul>\n<li>b</li>\n</ul>") ∧
    markdown_to_html (chars ("- a\n\n- b"))
      = chars ("<ul>\n<li>a</li>\n\n<li>b</li>\n</ul>") := by
  refine ⟨fun md => ?_, by decide, by decide, by decide⟩
  have h := wrapGo_count (htmlLines md) false (htmlLines_shape md)
  exact ⟨h.1, by simpa using h.2⟩

/-- C8: `extract_version_date` returns the `YYYY-MM-DD` date captured
verbatim from the first boundary line of the requested version when one is
present, returns today's date when no line is a boundary for the version,
and returns today's date (without raising) when the changelog cannot be
read. -/
theorem claim_C8 (content v today : Str) :
    extract_version_date (some content) v today
      = ((splitLines content).findSome? (lineDate v)).getD today ∧
    ((∀ l ∈ splitLines content, lineMatchesHeader v l = false) →
      extract_version_date (some content) v today = today) ∧
    extract_version_date none v today = today := by
  refine ⟨?_, ?_, rfl⟩
  · show (evdSearch content v).getD today = _
    rw [evdSearch_eq_findSome]
  · intro h
    show (evdSearch content v).getD today = _
    unfold evdSearch
    rw [findLine_none _ _ h]
    rfl

/-- C8 witness: a changelog with no boundary for `9.9.9` falls back to the
supplied current date. -/
theorem claim_C8_witness :
    (∀ l ∈ splitLines (chars ("## [1.0.0] - 2025-01-01\n- x")),
      lineMatchesHeader (chars ("9.9.9")) l = false) ∧
    extract_version_date (some (chars ("## [1.0.0] - 2025-01-01\n- x")))
      (chars ("9.9.9")) (chars ("2026-02-03")) = chars ("2026-02-03") :=
  ⟨by decide,
   (claim_C8 (chars ("## [1.0.0] - 2025-01-01\n- x")) (chars ("9.9.9"))
     (chars ("2026-02-03"))).2.1 (by decide)⟩

/-- C6: when no line of the changelog is a version boundary for the
requested version, `get_release_notes` yields exactly the fixed placeholder
body, and the feed entry built by `update_appcast` carries that placeholder
as its description (the run proceeds normally). -/
theorem claim_C6 (content v : Str)
    (h : ∀ l ∈ splitLines content, lineMatchesHeader v l = false) :
    get_release_notes (some content) v = noNotes ∧
    ∀ url sig lenStr today now2822 : Str,
      (buildItem v url sig lenStr (some content) today now2822).description = noNotes := by
  have hg : grnBody content v = none := by
    unfold grnBody
    rw [findLine_none _ _ h]
  have hmain : get_release_notes (some content) v = noNotes := by
    show (match grnBody content v with
          | none => noNotes
          | some b => docPre ++ markdown_to_html b ++ docPost) = noNotes
    rw [hg]
  exact ⟨hmain, fun _ _ _ _ _ => hmain⟩

/-- C6 witness: requesting version `9.9.9` against a changelog that only
documents `1.0.0` yields the placeholder description. -/
theorem claim_C6_witness :
    (∀ l ∈ splitLines (chars ("## [1.0.0] - 2025-01-01\n- x")),
      lineMatchesHeader (chars ("9.9.9")) l = false) ∧
    get_release_notes (some (chars ("## [1.0.0] - 2025-01-01\n- x")))
      (chars ("9.9.9")) = noNotes :=
  ⟨by decide,
   (claim_C6 (chars ("## [1.0.0] - 2025-01-01\n- x")) (chars ("9.9.9")) (by decide)).1⟩

/-- C10: `get_release_notes` is total in the model: an unreadable or absent
changelog (the `except` branch, modelled by the `none` file state) yields
exactly the placeholder, and on readable content the result is either the
placeholder or the styled document embedding the rendered window. -/
theorem claim_C10 :
    (∀ v : Str, get_release_notes none v = noNotes) ∧
    (∀ c v : Str, get_release_notes (some c) v = noNotes ∨
      ∃ b, grnBody c v = some b ∧
        get_release_notes (some c) v = docPre ++ markdown_to_html b ++ docPost) := by
  refine ⟨fun v => rfl, fun c v => ?_⟩
  cases hg : grnBody c v with
  | none =>
    left
    show (match grnBody c v with
          | none => noNotes
          | some b => docPre ++ markdown_to_html b ++ docPost) = noNotes
    rw [hg]
  | some b =>
    right
    refine ⟨b, rfl, ?_⟩
    show (match grnBody c v with
          | none => noNotes
          | some b => docPre ++ markdown_to_html b ++ docPost) = _
    rw [hg]

/-- C7: when the persisted feed is absent (`none`), exists but is empty, or
is present but fails to parse, `update_appcast` does not fail: it falls
back to the freshly initialized structure (rss envelope with one empty
channel), gives the channel its title, and produces the serialized document
consisting of exactly the title and the one new item. -/
theorem claim_C7 (file : Option Str) (version url sig lenStr : Str)
    (changelog : Option Str) (today now2822 : Str)
    (h : file = none ∨ file = some [] ∨ ∃ s, file = some s ∧ parseFeed s = none) :
    update_appcast file version url sig lenStr changelog today now2822
      = serializeFeed [Child.title (chars ("Notimanager")),
          Child.item (buildItem version url sig lenStr changelog today now2822)] := by
  have hload : loadChannel file = freshChannel := by
    rcases h with rfl | rfl | ⟨s, rfl, hp⟩
    · rfl
    · rfl
    · show (if s = [] then freshChannel else (parseFeed s).getD freshChannel) = _
      by_cases hs : s = []
      · rw [if_pos hs]
      · rw [if_neg hs, hp]
        rfl
  unfold update_appcast
  rw [hload]
  rfl

/-- C7 witness: an absent feed file. -/
theorem claim_C7_witness :
    ((none : Option Str) = none ∨ (none : Option Str) = some [] ∨
      ∃ s, (none : Option Str) = some s ∧ parseFeed s = none) ∧
    update_appcast none (chars ("1.0.0")) (chars ("u")) (chars ("g")) (chars ("7"))
        none (chars ("2026-02-03")) (chars ("NOW"))
      = serializeFeed [Child.title (chars ("Notimanager")),
          Child.item (buildItem (chars ("1.0.0")) (chars ("u")) (chars ("g")) (chars ("7"))
            none (chars ("2026-02-03")) (chars ("NOW")))] :=
  ⟨Or.inl rfl,
   claim_C7 none (chars ("1.0.0")) (chars ("u")) (chars ("g")) (chars ("7"))
     none (chars ("2026-02-03")) (chars ("NOW")) (Or.inl rfl)⟩

/-- C9 (the full-regeneration mode exists only in the spec; it is modelled
from the spec's words): full regeneration emits one item per changelog
record, ordered exactly as the changelog orders them; the item at the
ordinal of the active release carries the real enclosure metadata, and the
item of every other version carries a placeholder enclosure whose url
contains that version string, whose length is the string `0`, and which has
no signature. -/
theorem claim_C9 (recs : List VersionRecord) (active url sig lenStr now2822 : Str) :
    (fullRegenerate recs active url sig lenStr now2822).length = recs.length ∧
    (∀ i (hi : i < recs.length),
      ((fullRegenerate recs active url sig lenStr now2822).get
          ⟨i, by simpa [fullRegenerate] using hi⟩).title
        = (recs.get ⟨i, hi⟩).version ∧
      ((recs.get ⟨i, hi⟩).version = active →
        ((fullRegenerate recs active url sig lenStr now2822).get
            ⟨i, by simpa [fullRegenerate] using hi⟩).enclosure
          = ⟨url, lenStr, sig⟩) ∧
      ((recs.get ⟨i, hi⟩).version ≠ active →
        ((fullRegenerate recs active url sig lenStr now2822).get
            ⟨i, by simpa [fullRegenerate] using hi⟩).enclosure
          = ⟨placeholderUrl (recs.get ⟨i, hi⟩).version, chars ("0"), []⟩)) ∧
    (∀ v : Str, ∃ pre post, placeholderUrl v = pre ++ v ++ post) := by
  refine ⟨by simp [fullRegenerate], fun i hi => ?_, fun v =>
    ⟨chars ("https://example.invalid/Notimanager-"), chars (".dmg"), rfl⟩⟩
  have hget : (fullRegenerate recs active url sig lenStr now2822).get
      ⟨i, by simpa [fullRegenerate] using hi⟩
      = (fun r => if r.version = active then mkRecordItem r url sig lenStr now2822
          else mkRecordItem r (placeholderUrl r.version) [] (chars ("0")) now2822)
          (recs.get ⟨i, hi⟩) := by
    simp [fullRegenerate]
  rw [hget]
  simp only [List.get_eq_getElem]
  by_cases hv : recs[i].version = active
  · simp [hv, mkRecordItem]
  · simp [hv, mkRecordItem]

/-- C1: for every existing feed channel and every newly released version,
the updated channel's items are exactly the prior items with the new item
inserted at one position: no prior item is removed and every prior item —
including its enclosure's signature field — is unchanged; moreover the
serialized output contains the unchanged serialized block (with its
signature attribute) of every prior item. -/
theorem claim_C1 (cs : List Child) (version url sig lenStr : Str)
    (changelog : Option Str) (today now2822 : Str) :
    ∃ l1 l2,
      itemsOf (updateChannel cs (buildItem version url sig lenStr changelog today now2822))
        = l1 ++ buildItem version url sig lenStr changelog today now2822 :: l2 ∧
      l1 ++ l2 = itemsOf cs ∧
      ∀ p ∈ itemsOf cs, ∃ u w,
        serializeFeed (updateChannel cs (buildItem version url sig lenStr changelog today now2822))
          = u ++ (serializeItem p ++ w) := by
  rcases update_items cs (buildItem version url sig lenStr changelog today now2822)
    with ⟨l1, l2, h1, h2⟩
  refine ⟨l1, l2, h1, h2, fun p hp => ?_⟩
  have hmem : p ∈ itemsOf (updateChannel cs
      (buildItem version url sig lenStr changelog today now2822)) := by
    rw [h1]
    rw [← h2] at hp
    rcases List.mem_append.mp hp with h | h
    · exact List.mem_append.mpr (Or.inl h)
    · exact List.mem_append.mpr (Or.inr (List.mem_cons_of_mem _ h))
  rcases flatMap_occurs serializeItem p _ hmem with ⟨u, w, hu⟩
  unfold serializeFeed
  rw [hu]
  refine ⟨tkHeader ++ titleSeg (updateChannel cs
    (buildItem version url sig lenStr changelog today now2822)) ++ u,
    w ++ (tkChanClose ++ tkRssClose), ?_⟩
  simp

/-- The channel used by the C3 witness. -/
def c3WitnessChannel : List Child :=
  [Child.title (chars ("Notimanager")),
   Child.item
     { title := chars ("2.1.5")
       pubDate := chars ("Sun, 18 Jan 2026 00:00:00 +0000")
       sparkleVersion := some (chars ("2.1.5"))
       shortVersionString := some (chars ("2.1.5"))
       minimumSystemVersion := some (chars ("14.0"))
       description := chars ("<p>No release notes available.</p>")
       enclosure := { url := chars ("https://example.invalid/Notimanager-2.1.5.dmg")
                      lengthAttr := chars ("1234567")
                      sig := chars ("dGVzdFNpZ25hdHVyZQ==") } }]

/-- C3: re-parsing a serialized feed document with the reconciler's parser
recovers a channel whose items — hence their versions (titles) and their
enclosure signatures — are exactly those of the serialized document.  The
hypothesis excludes descriptions containing the CDATA terminator `]]>`,
which the raw CDATA embedding of the serializer cannot represent. -/
theorem claim_C3 (cs : List Child)
    (h : ∀ it ∈ itemsOf cs, occursB (chars ("]]>")) it.description = false) :
    ∃ cs2, parseFeed (serializeFeed cs) = some cs2 ∧
      itemsOf cs2 = itemsOf cs ∧
      (itemsOf cs2).map Item.title = (itemsOf cs).map Item.title ∧
      (itemsOf cs2).map (fun it => it.enclosure.sig)
        = (itemsOf cs).map (fun it => it.enclosure.sig) := by
  have hdesc : ∀ it ∈ itemsOf cs, splitOnFirst (chars ("]]>")) it.description = none := by
    intro it hit
    have hb := h it hit
    unfold occursB at hb
    cases hsp : splitOnFirst (chars ("]]>")) it.description with
    | none => rfl
    | some p => rw [hsp] at hb; simp at hb
  have hrec : itemsOf ((match firstTitle cs with
      | some t => [Child.title t]
      | none => []) ++ (itemsOf cs).map Child.item) = itemsOf cs := by
    cases firstTitle cs with
    | some t => rw [itemsOf_append, itemsOf_map_item]; rfl
    | none => rw [itemsOf_append, itemsOf_map_item]; rfl
  exact ⟨_, parseFeed_serializeFeed cs hdesc, hrec, by rw [hrec], by rw [hrec]⟩

/-- C3 witness: a concrete one-item feed document with a signature
round-trips. -/
theorem claim_C3_witness :
    (∀ it ∈ itemsOf c3WitnessChannel,
      occursB (chars ("]]>")) it.description = false) ∧
    (∃ cs2, parseFeed (serializeFeed c3WitnessChannel) = some cs2 ∧
      itemsOf cs2 = itemsOf c3WitnessChannel ∧
      (itemsOf cs2).map Item.title = (itemsOf c3WitnessChannel).map Item.title ∧
      (itemsOf cs2).map (fun it => it.enclosure.sig)
        = (itemsOf c3WitnessChannel).map (fun it => it.enclosure.sig)) :=
  ⟨by decide, claim_C3 c3WitnessChannel (by decide)⟩

/-- C9 witness: a one-record changelog regenerates to a one-item list. -/
theorem claim_C9_witness :
    (0 < ([⟨chars ("1.1.0"), chars ("2026-01-02"), chars ("- y")⟩] : List VersionRecord).length) ∧
    (fullRegenerate [⟨chars ("1.1.0"), chars ("2026-01-02"), chars ("- y")⟩]
        (chars ("1.1.0")) (chars ("u")) (chars ("g")) (chars ("7")) (chars ("NOW"))).length
      = ([⟨chars ("1.1.0"), chars ("2026-01-02"), chars ("- y")⟩] : List VersionRecord).length :=
  ⟨by decide,
   (claim_C9 [⟨chars ("1.1.0"), chars ("2026-01-02"), chars ("- y")⟩]
     (chars ("1.1.0")) (chars ("u")) (chars ("g")) (chars ("7")) (chars ("NOW"))).1⟩
